import Mathlib

set_option maxHeartbeats 1000000

namespace GhNotes

/- Shallow embedding of the github-git-notes-viewer browser extension
(src/content.js and src/background.js).  Strings are modelled as Lean
strings, with regex tests over their character lists. -/

/-- JS whitespace accepted by String.prototype.trim (ASCII range plus NBSP
and BOM; the exotic Unicode space points are not used by the program). -/
def isJsWhitespace (c : Char) : Bool :=
  c == ' ' || c == '\t' || c == '\n' || c == '\r' ||
  c == Char.ofNat 11 || c == Char.ofNat 12 || c == Char.ofNat 160 ||
  c == Char.ofNat 65279

/-- String.prototype.trim on a character list. -/
def jsTrim (s : List Char) : List Char :=
  ((s.dropWhile isJsWhitespace).reverse.dropWhile isJsWhitespace).reverse

/-- JS regex line terminators (relevant to the m flag and to the dot). -/
def isLineTerm (c : Char) : Bool :=
  c == '\n' || c == '\r' || c == Char.ofNat 8232 || c == Char.ofNat 8233

/-- JS regex class backslash-s: whitespace including line terminators. -/
def isRegexSpace (c : Char) : Bool := isJsWhitespace c || isLineTerm c

/-- Length of the leading run of characters satisfying p. -/
def countWhileP (p : Char → Bool) : List Char → Nat
  | [] => 0
  | c :: rest => if p c then countWhileP p rest + 1 else 0

/-- Does p hold of some suffix that starts right after a line terminator? -/
def existsAfterTerm (p : List Char → Bool) : List Char → Bool
  | [] => false
  | c :: rest => (isLineTerm c && p rest) || existsAfterTerm p rest

/-- Does p hold at some multiline-caret position (start of string or right
after a line terminator)?  This is the m-flag caret of JS regexes. -/
def existsAtLineStart (p : List Char → Bool) (s : List Char) : Bool :=
  p s || existsAfterTerm p s

/-- Does p hold at some position (suffix) of the list? -/
def existsPos (p : List Char → Bool) : List Char → Bool
  | [] => p []
  | c :: rest => p (c :: rest) || existsPos p rest

/-- Split at every line terminator character (the lines a JS dot ranges over). -/
def splitLines : List Char → List (List Char)
  | [] => [[]]
  | c :: rest =>
    match splitLines rest with
    | [] => [[]]
    | l :: ls => if isLineTerm c then [] :: l :: ls else (c :: l) :: ls

/-- Is the first list a prefix of the second? -/
def startsWithL : List Char → List Char → Bool
  | [], _ => true
  | _ :: _, [] => false
  | p :: ps, c :: cs => p == c && startsWithL ps cs

/-- Does pat occur as a contiguous substring of s? -/
def containsSub (pat : List Char) (s : List Char) : Bool :=
  existsPos (startsWithL pat) s

/-- Is the next character a regex-space? -/
def spaceNext : List Char → Bool
  | [] => false
  | c :: _ => isRegexSpace c

/-- Heading test at a caret position: one to six hash signs then a space,
the stem of the first markdown regex of detectFormat (content.js). -/
def headingAt (s : List Char) : Bool :=
  let k := countWhileP (fun c => c == Char.ofNat 35) s
  decide (1 ≤ k) && decide (k ≤ 6) && spaceNext (s.drop k)

/-- Two consecutive asterisks here? -/
def twoStars : List Char → Bool
  | a :: b :: _ => a == '*' && b == '*'
  | _ => false

/-- Bold test at a position: two asterisks, one or more non-asterisks, then
two asterisks (content.js detectFormat bold regex). -/
def boldFrom : List Char → Bool
  | a :: b :: rest =>
    if a == '*' && b == '*' then
      let r := countWhileP (fun c => !(c == '*')) rest
      decide (1 ≤ r) && twoStars (rest.drop r)
    else false
  | _ => false

/-- Table test on one line: a pipe, one or more dot characters, a final pipe
(content.js detectFormat table regex). -/
def tableLine (l : List Char) : Bool :=
  match l with
  | c :: rest => c == '|' && decide (2 ≤ rest.length) && (rest.getLast? == some '|')
  | [] => false

/-- Unordered-list test at a caret position: dash or asterisk then a space. -/
def ulAt : List Char → Bool
  | c :: d :: _ => (c == '-' || c == '*') && isRegexSpace d
  | _ => false

/-- Ordered-list test at a caret position: digits, a dot, then a space. -/
def olAt (s : List Char) : Bool :=
  let k := countWhileP Char.isDigit s
  decide (1 ≤ k) &&
    (match s.drop k with
     | c :: d :: _ => c == '.' && isRegexSpace d
     | _ => false)

/-- The backquote character. -/
def backtickChar : Char := Char.ofNat 96

/-- Code-fence test at a caret position: three backquotes. -/
def fenceAt : List Char → Bool
  | a :: b :: c :: _ => a == backtickChar && b == backtickChar && c == backtickChar
  | _ => false

/-- Opening of an HTML comment. -/
def commentOpen : List Char := ['<', '!', '-', '-']

/-- Closing of an HTML comment. -/
def commentClose : List Char := ['-', '-', '>']

/-- HTML comment starting here: the opener, any dot characters, the closer. -/
def commentFrom (s : List Char) : Bool :=
  startsWithL commentOpen s && containsSub commentClose (s.drop 4)

/-- Does the line contain an HTML comment? -/
def lineHasComment (l : List Char) : Bool := existsPos commentFrom l

/-- The markdown branch condition of detectFormat (content.js): headers,
bold, tables, unordered lists, ordered lists, code fences, HTML comments. -/
def markdownPattern (s : List Char) : Bool :=
  existsAtLineStart headingAt s ||
  existsPos boldFrom s ||
  (splitLines s).any tableLine ||
  existsAtLineStart ulAt s ||
  existsAtLineStart olAt s ||
  existsAtLineStart fenceAt s ||
  (splitLines s).any lineHasComment

/-- YAML key test at a caret position: a letter or underscore, then letters,
digits or underscores, a colon, and a space (content.js detectFormat). -/
def yamlKeyAt : List Char → Bool
  | [] => false
  | c :: rest =>
    if c.isAlpha || c == '_' then
      let k := countWhileP (fun d => d.isAlpha || d.isDigit || d == '_') rest
      match rest.drop k with
      | a :: b :: _ => a == ':' && isRegexSpace b
      | _ => false
    else false

/-- Number of matching caret positions strictly after a line terminator. -/
def countAfterTerm (p : List Char → Bool) : List Char → Nat
  | [] => 0
  | c :: rest => (if isLineTerm c && p rest then 1 else 0) + countAfterTerm p rest

/-- Number of caret positions at which p matches; this is the global match
count of the anchored YAML regex of detectFormat. -/
def countLineStarts (p : List Char → Bool) (s : List Char) : Nat :=
  (if p s then 1 else 0) + countAfterTerm p s

/-- The left curly bracket character. -/
def lcurly : Char := Char.ofNat 123

/-- JSON start test of detectFormat: a bracket or curly bracket. -/
def jsonStart : List Char → Bool
  | c :: _ => c == '[' || c == lcurly
  | [] => false

/-- detectFormat from content.js.  JSON.parse is a host builtin, not
repository code, so successful parsing is abstracted as the jsonParses
parameter applied to the trimmed text. -/
def detectFormat (jsonParses : List Char → Bool) (content : List Char) : String :=
  let trimmed := jsTrim content
  if jsonStart trimmed && jsonParses trimmed then "json"
  else if markdownPattern trimmed then "markdown"
  else if existsAtLineStart yamlKeyAt trimmed &&
      decide (2 ≤ countLineStarts yamlKeyAt trimmed) then "yaml"
  else "plain"


/- JavaScript String.prototype.slice with non-negative indices, as used by
resolveNoteBlob (background.js) and fetchNoteContent (content.js). -/

/-- s.slice(a, b) for non-negative indices. -/
def jsSliceStr (s : String) (a b : Nat) : String := String.mk ((s.data.take b).drop a)

/-- s.slice(a) for a non-negative index. -/
def jsSliceStrFrom (s : String) (a : Nat) : String := String.mk (s.data.drop a)

/-- Hex digit as accepted by the commit URL regex of content.js. -/
def isHexChar (c : Char) : Bool :=
  c.isDigit || ('a' ≤ c && c ≤ 'f') || ('A' ≤ c && c ≤ 'F')

/- Model of the content-script note fetching (content.js).  The browser
network is an oracle from requests to responses; the Authorization header
value does not influence which strategy a request belongs to, so it is not
part of the request descriptor. -/

/-- One entry of the same-origin JSON tree listing (payload.tree.items). -/
structure CEntry where
  name : String
  contentType : String
deriving DecidableEq

/-- A network request issued by content.js: raw.githubusercontent.com
without auth, the same with an Authorization header, or the same-origin
cookie-authenticated JSON tree endpoint. -/
inductive Req where
  | rawNoAuth (path : String)
  | rawAuth (path : String)
  | treeJson (path : String)
deriving DecidableEq

/-- A network response: a network error (fetch rejection) or an HTTP
response with its status, text body, and, for tree endpoints, the parsed
payload.tree.items list (none when absent or unparsable). -/
inductive Rsp where
  | netErr
  | http (status : Nat) (text : String) (items : Option (List CEntry))
deriving DecidableEq

/-- Response.ok of the fetch API: status in the inclusive range 200-299. -/
def isOk (status : Nat) : Bool := 200 ≤ status && status ≤ 299

/-- noteRef.replace of the anchored refs pattern: drop a leading refs/ . -/
def stripRefs (r : String) : String :=
  if startsWithL "refs/".data r.data then String.mk (r.data.drop 5) else r

/-- The two candidate paths of fetchNoteContent: direct and fanout layout
(the cache-busting query parameter carries no information and is omitted). -/
def notePaths (branch sha : String) : List String :=
  [branch ++ "/" ++ sha,
   branch ++ "/" ++ jsSliceStr sha 0 2 ++ "/" ++ jsSliceStrFrom sha 2]

/-- One strategy loop of fetchNoteContent: fetch each path in turn, return
the body of the first ok response, skip network errors and non-ok statuses;
also returns the list of requests issued. -/
def tryPaths (o : Req → Rsp) (mk : String → Req) : List String → Option String × List Req
  | [] => (none, [])
  | p :: rest =>
    match o (mk p) with
    | Rsp.http st text _ =>
      if isOk st then (some text, [mk p])
      else
        let r := tryPaths o mk rest
        (r.1, mk p :: r.2)
    | Rsp.netErr =>
      let r := tryPaths o mk rest
      (r.1, mk p :: r.2)

/-- fetchNoteContent from content.js: strategy 1 is the unauthenticated raw
endpoint over both layouts, strategy 2 (only when a token is stored) is the
token-authenticated raw endpoint over both layouts.  Returns the first
successful body and the trace of requests issued. -/
def fetchNoteContent (o : Req → Rsp) (token : Option String) (noteRef sha : String) :
    Option String × List Req :=
  let branch := stripRefs noteRef
  let paths := notePaths branch sha
  let s1 := tryPaths o Req.rawNoAuth paths
  match s1.1 with
  | some t => (some t, s1.2)
  | none =>
    match token with
    | some _ =>
      let s2 := tryPaths o Req.rawAuth paths
      (s2.1, s1.2 ++ s2.2)
    | none => (none, s1.2)

/-- Result object of fetchGitNote in content.js. -/
structure NoteResult where
  content : Option String
  needsToken : Bool
deriving DecidableEq

/-- Entry prefix-match used by fetchGitNote on the top-level listing. -/
def nameMatches (sha : String) (e : CEntry) : Bool :=
  e.name == sha || startsWithL sha.data e.name.data

/-- Tail of fetchGitNote once a candidate full path is known: fetch the
content, report it, or report that a token is needed. -/
def contentOrToken (o : Req → Rsp) (token : Option String) (noteRef full : String)
    (trace : List Req) : Except Unit (Option NoteResult) × List Req :=
  let f := fetchNoteContent o token noteRef full
  match f.1 with
  | some c => (Except.ok (some ⟨some c, false⟩), trace ++ f.2)
  | none => (Except.ok (some ⟨none, true⟩), trace ++ f.2)

/-- Fanout branch of fetchGitNote: look for a 2-character directory entry,
list it via the same-origin endpoint, prefix-match the 38-character suffix,
and fetch the matching sub-path. -/
def fanoutLookup (o : Req → Rsp) (token : Option String) (noteRef sha branch : String)
    (entries : List CEntry) (trace : List Req) : Except Unit (Option NoteResult) × List Req :=
  let pre := jsSliceStr sha 0 2
  match entries.find? (fun e => e.name == pre && e.contentType == "directory") with
  | none => (Except.ok none, trace)
  | some _ =>
    let req := Req.treeJson (branch ++ "/" ++ pre)
    match o req with
    | Rsp.netErr => (Except.error (), trace ++ [req])
    | Rsp.http st _ items =>
      let t2 := trace ++ [req]
      if isOk st then
        let subEntries := items.getD []
        let suf := jsSliceStrFrom sha 2
        match subEntries.find? (nameMatches suf) with
        | some sm => contentOrToken o token noteRef (pre ++ "/" ++ sm.name) t2
        | none => (Except.ok none, t2)
      else (Except.ok none, t2)

/-- fetchGitNote from content.js: first try the raw content directly (both
layouts, both auth strategies), then fall back to the same-origin JSON tree
listing to resolve abbreviated SHAs and fanout directories.  Except.error
models an uncaught fetch rejection propagating to the caller. -/
def fetchGitNote (o : Req → Rsp) (token : Option String) (noteRef sha : String) :
    Except Unit (Option NoteResult) × List Req :=
  let d := fetchNoteContent o token noteRef sha
  match d.1 with
  | some c => (Except.ok (some ⟨some c, false⟩), d.2)
  | none =>
    let branch := stripRefs noteRef
    let req := Req.treeJson branch
    match o req with
    | Rsp.netErr => (Except.error (), d.2 ++ [req])
    | Rsp.http st _ items =>
      let t1 := d.2 ++ [req]
      if isOk st then
        match items with
        | none => (Except.ok none, t1)
        | some entries =>
          match entries.find? (nameMatches sha) with
          | some m =>
            if m.contentType == "file" then contentOrToken o token noteRef m.name t1
            else fanoutLookup o token noteRef sha branch entries t1
          | none => fanoutLookup o token noteRef sha branch entries t1
      else (Except.ok none, t1)

/- Model of the background worker (background.js).  The GitHub REST API is
abstracted as oracles; githubApi converts HTTP statuses into thrown error
objects, modelled with Except. -/

/-- Git object kind of a REST tree entry. -/
inductive BType where
  | blob
  | tree
  | commit
deriving DecidableEq

/-- One entry of a REST git tree response. -/
structure GEntry where
  path : String
  etype : BType
  sha : String
deriving DecidableEq

/-- Value stored in the notes-tree lookup map of fetchNotesTree. -/
structure BEntry where
  etype : BType
  sha : String
deriving DecidableEq

/-- JS Map modelled as an insertion-ordered association list. -/
def mapGetB (m : List (String × BEntry)) (k : String) : Option BEntry :=
  (m.find? (fun p => p.1 == k)).map (fun p => p.2)

/-- JS Map.set: replace an existing key in place, else append. -/
def mapSetB (m : List (String × BEntry)) (k : String) (v : BEntry) :
    List (String × BEntry) :=
  if (m.find? (fun p => p.1 == k)).isSome
  then m.map (fun p => if p.1 == k then (k, v) else p)
  else m ++ [(k, v)]

/-- Lookup-map construction loop of fetchNotesTree (background.js): blob
entries map a full SHA to a blob, tree entries map a 2-character fanout
name to a subtree; other kinds are skipped. -/
def buildTree (entries : List GEntry) : List (String × BEntry) :=
  entries.foldl (fun m e =>
    match e.etype with
    | BType.blob => mapSetB m e.path ⟨BType.blob, e.sha⟩
    | BType.tree => mapSetB m e.path ⟨BType.tree, e.sha⟩
    | BType.commit => m) []

/-- Error object thrown by githubApi (background.js). -/
structure GhErr where
  status : Nat
  message : String
deriving DecidableEq

/-- resolveNoteBlob from background.js: direct lookup of the full commit
SHA; else treat the first 2 characters as a fanout directory and look for
the remaining 38 characters as an exact blob name inside the fetched
subtree (subFetch is the trees API call, which may throw). -/
def resolveNoteBlob (tree : List (String × BEntry))
    (subFetch : String → Except GhErr (List GEntry)) (commitSha : String) :
    Except GhErr (Option String) :=
  let fanout : Except GhErr (Option String) :=
    let pre := jsSliceStr commitSha 0 2
    let suf := jsSliceStrFrom commitSha 2
    match mapGetB tree pre with
    | some se =>
      if se.etype == BType.tree then
        match subFetch se.sha with
        | Except.error e => Except.error e
        | Except.ok entries =>
          match entries.find? (fun en => en.path == suf && en.etype == BType.blob) with
          | some en => Except.ok (some en.sha)
          | none => Except.ok none
      else Except.ok none
    | none => Except.ok none
  match mapGetB tree commitSha with
  | some d => if d.etype == BType.blob then Except.ok (some d.sha) else fanout
  | none => fanout

/-- Shape of a REST response as seen by the error classification of
githubApi: its status and the two rate-limit headers. -/
structure ApiRsp where
  status : Nat
  rlRemaining : Option String
  rlReset : Option String
deriving DecidableEq

/-- Error classification of githubApi (background.js): some error exactly
when the call throws (the locale formatting of the reset date is abstracted
to the raw header value). -/
def classifyApi (r : ApiRsp) : Option GhErr :=
  if r.status == 401 then some ⟨401, "Invalid or expired token"⟩
  else if r.status == 403 then
    if r.rlRemaining == some "0" then
      match r.rlReset with
      | some reset => some ⟨403, "Rate limit exceeded. Resets at " ++ reset⟩
      | none => some ⟨403, "Rate limit exceeded"⟩
    else some ⟨403, "Forbidden"⟩
  else if r.status == 404 then some ⟨404, "Not found"⟩
  else if !isOk r.status then some ⟨r.status, "GitHub API error: " ++ toString r.status⟩
  else none

/-- One entry of the background tree cache. -/
structure CacheEntry where
  tree : List (String × BEntry)
  ts : Int
deriving DecidableEq

/-- CACHE_TTL from background.js: five minutes in milliseconds. -/
def CACHE_TTL : Int := 5 * 60 * 1000

/-- isCacheValid from background.js (Date.now passed explicitly). -/
def isCacheValid (entry : Option CacheEntry) (now : Int) : Bool :=
  match entry with
  | none => false
  | some en => decide (now - en.ts < CACHE_TTL)

/-- Cache key construction of fetchNotesTree. -/
def cacheKey (owner repo noteRef : String) : String :=
  owner ++ "/" ++ repo ++ ":" ++ noteRef

/-- Lookup in the tree cache (a JS Map). -/
def cacheGet (m : List (String × CacheEntry)) (k : String) : Option CacheEntry :=
  (m.find? (fun p => p.1 == k)).map (fun p => p.2)

/-- Map.set on the tree cache. -/
def cacheSet (m : List (String × CacheEntry)) (k : String) (v : CacheEntry) :
    List (String × CacheEntry) :=
  if (m.find? (fun p => p.1 == k)).isSome
  then m.map (fun p => if p.1 == k then (k, v) else p)
  else m ++ [(k, v)]

/-- fetchNotesTree from background.js: serve a valid cache entry, else
chain the ref, commit and tree API calls, build the lookup map, and store
it stamped with the current time.  Returns the tree and the updated cache. -/
def fetchNotesTree (cache : List (String × CacheEntry)) (owner repo noteRef : String)
    (now : Int) (refApi : Except GhErr String) (commitApi : String → Except GhErr String)
    (treeApi : String → Except GhErr (List GEntry)) :
    Except GhErr (List (String × BEntry) × List (String × CacheEntry)) :=
  let key := cacheKey owner repo noteRef
  let cached := cacheGet cache key
  let fetchFresh : Except GhErr (List (String × BEntry) × List (String × CacheEntry)) :=
    match refApi with
    | Except.error e => Except.error e
    | Except.ok commitSha =>
      match commitApi commitSha with
      | Except.error e => Except.error e
      | Except.ok treeSha =>
        match treeApi treeSha with
        | Except.error e => Except.error e
        | Except.ok entries =>
          let tree := buildTree entries
          Except.ok (tree, cacheSet cache key ⟨tree, now⟩)
  if isCacheValid cached now then
    match cached with
    | some en => Except.ok (en.tree, cache)
    | none => fetchFresh
  else fetchFresh

/-- Reply value sent back by the message handler of background.js. -/
inductive Reply where
  | err (code : String) (message : String)
  | notes (found : List (String × String))
deriving DecidableEq

/-- Per-ref loop of handleFetchGitNote (background.js): collect found
notes; a thrown 404 skips the ref silently; a 401, 403 or other error
aborts with the corresponding error reply.  Also returns the list of refs
for which the API chain was invoked. -/
def fetchLoopT (fetch : String → Except GhErr (Option String)) :
    List String → List (String × String) → Reply × List String
  | [], acc => (Reply.notes acc, [])
  | r :: rest, acc =>
    match fetch r with
    | Except.ok (some c) =>
      let t := fetchLoopT fetch rest (acc ++ [(r, c)])
      (t.1, r :: t.2)
    | Except.ok none =>
      let t := fetchLoopT fetch rest acc
      (t.1, r :: t.2)
    | Except.error e =>
      if e.status == 404 then
        let t := fetchLoopT fetch rest acc
        (t.1, r :: t.2)
      else if e.status == 401 then (Reply.err "auth_error" e.message, [r])
      else if e.status == 403 then (Reply.err "rate_limit" e.message, [r])
      else (Reply.err "api_error" e.message, [r])

/-- handleFetchGitNote from background.js: with no stored token, reply
no_token at once; otherwise run the per-ref loop.  The per-ref API chain
(fetchGitNote of background.js) is abstracted as the fetch oracle; the
second component is the list of refs for which it was invoked. -/
def handleFetchGitNote (token : Option String) (noteRefs : List String)
    (fetch : String → Except GhErr (Option String)) : Reply × List String :=
  match token with
  | none => (Reply.err "no_token" "No GitHub token configured", [])
  | some _ => fetchLoopT fetch noteRefs []

/-- getNoteRefs from background.js: the stored list when nonempty, else
the single default ref. -/
def getNoteRefs (stored : Option (List String)) : List String :=
  match stored with
  | some l => if 0 < l.length then l else ["refs/notes/commits"]
  | none => ["refs/notes/commits"]

/-- getNoteRefs from content.js: as in the background, but a storage
failure (the catch branch) also yields the default. -/
def getNoteRefsContent (stored : Except Unit (Option (List String))) : List String :=
  match stored with
  | Except.error _ => ["refs/notes/commits"]
  | Except.ok o => getNoteRefs o

/- Model of the markdown rendering path of renderContentToHtml
(content.js).  HTML is a tree of elements and text nodes. -/

/-- An HTML node: an element with tag, attributes and children, or text. -/
inductive Html where
  | text (s : String)
  | elem (tag : String) (attrs : List (String × String)) (children : List Html)

/-- ALLOWED_TAGS passed to the sanitizer by renderContentToHtml. -/
def ALLOWED_TAGS : List String :=
  ["h1", "h2", "h3", "h4", "h5", "h6", "p", "br", "strong", "em", "del",
   "ul", "ol", "li", "a", "code", "pre", "blockquote", "table", "thead",
   "tbody", "tr", "th", "td", "img", "hr", "div", "span", "sup", "sub"]

/-- ALLOWED_ATTR passed to the sanitizer by renderContentToHtml. -/
def ALLOWED_ATTR : List String :=
  ["href", "src", "alt", "title", "class", "id", "align"]

/-- Lower-cased character list of a string. -/
def toLowerL (s : String) : List Char := s.data.map Char.toLower

/-- Does the attribute value denote a javascript: URL (scheme test on the
lower-cased value)? -/
def isJsUrl (v : String) : Bool := startsWithL "javascript:".data (toLowerL v)

/-- Is the attribute kept by the sanitizer: its name must be allow-listed,
and URL-valued attributes must not carry a javascript: URL. -/
def attrKeep (a : String × String) : Bool :=
  decide (a.1 ∈ ALLOWED_ATTR) &&
    (!(a.1 == "href" || a.1 == "src") || !isJsUrl a.2)

mutual

/-- Modelled from the spec: DOMPurify.sanitize is a vendored third-party
library (lib/purify.min.js, not under src/); per the spec it performs
strict allow-listed sanitization with the ALLOWED_TAGS / ALLOWED_ATTR
configuration from renderContentToHtml, dropping disallowed elements
(keeping their sanitized children), filtering attributes to the allow
list, and rejecting javascript: URLs in URL-valued attributes. -/
def sanitizeNode : Html → List Html
  | Html.text s => [Html.text s]
  | Html.elem tag attrs children =>
    let cs := sanitizeList children
    if decide (tag ∈ ALLOWED_TAGS) then [Html.elem tag (attrs.filter attrKeep) cs]
    else cs

/-- Sanitization of a node list (an HTML fragment). -/
def sanitizeList : List Html → List Html
  | [] => []
  | h :: t => sanitizeNode h ++ sanitizeList t

end

/-- Is the attribute harmless: not an inline event handler (name beginning
in the letters o n) and not a javascript: URL in href or src? -/
def attrSafe (a : String × String) : Bool :=
  !startsWithL "on".data a.1.data &&
    (!(a.1 == "href" || a.1 == "src") || !isJsUrl a.2)

mutual

/-- Is the HTML tree free of script elements, inline event-handler
attributes, and javascript: URLs in href or src? -/
def htmlSafe : Html → Bool
  | Html.text _ => true
  | Html.elem tag attrs children =>
    !(tag == "script") && attrs.all attrSafe && htmlSafeList children

/-- htmlSafe over an HTML fragment. -/
def htmlSafeList : List Html → Bool
  | [] => true
  | h :: t => htmlSafe h && htmlSafeList t

end

/-- Markdown branch of renderContentToHtml (content.js): sanitize the HTML
produced by the markdown renderer and wrap it in a markdown-body div.  The
marked library output is an arbitrary HTML fragment, so the model takes it
as a parameter. -/
def renderMarkdownHtml (raw : List Html) : Html :=
  Html.elem "div" [("class", "markdown-body")] (sanitizeList raw)

/- Refinement spec for the fetch strategy chain, written after the order
the code actually implements: unauthenticated raw requests over both
layouts, then (with a token) authenticated raw requests over both layouts;
the chain stops at the first successful (2xx) response, any other response
advances, and network errors are skipped. -/

/-- The raw-endpoint requests of fetchNoteContent in the order the code
issues them. -/
def strategyReqs (token : Option String) (noteRef sha : String) : List Req :=
  let paths := notePaths (stripRefs noteRef) sha
  paths.map Req.rawNoAuth ++
    (match token with
     | some _ => paths.map Req.rawAuth
     | none => [])

/-- Body of the first request in the list that draws a successful (2xx)
response; non-2xx responses and network errors advance to the next. -/
def firstSuccess (o : Req → Rsp) : List Req → Option String
  | [] => none
  | r :: rest =>
    match o r with
    | Rsp.http st text _ => if isOk st then some text else firstSuccess o rest
    | Rsp.netErr => firstSuccess o rest

/-- The requests actually issued: the list up to and including the first
one with a successful response. -/
def triedReqs (o : Req → Rsp) : List Req → List Req
  | [] => []
  | r :: rest =>
    match o r with
    | Rsp.http st _ _ => if isOk st then [r] else r :: triedReqs o rest
    | Rsp.netErr => r :: triedReqs o rest

/-- Is the request one of the raw-endpoint requests (not the same-origin
cookie-authenticated tree endpoint)? -/
def isRawReq : Req → Bool
  | Req.treeJson _ => false
  | Req.rawNoAuth _ => true
  | Req.rawAuth _ => true

/-- Network oracle for the C2 counterexample: every endpoint answers 200,
with distinct bodies recording which endpoint served. -/
def oracleC2 : Req → Rsp
  | Req.rawNoAuth _ => Rsp.http 200 "served by unauthenticated raw" none
  | Req.rawAuth _ => Rsp.http 200 "served by token raw" none
  | Req.treeJson _ =>
    Rsp.http 200 ""
      (some [⟨"a94a8fe5ccb19ba61c4c0873d391e987982fbbd3", "file"⟩])

/-- Oracle for the C1 direct-layout witness: raw fetches for the
abbreviated SHA miss, the same-origin listing names the full SHA, and the
raw fetch for the full name succeeds. -/
def oracleC1a : Req → Rsp
  | Req.rawNoAuth p =>
    if p == "notes/commits/a94a8fe5ccb19ba61c4c0873d391e987982fbbd3" then
      Rsp.http 200 "resolved direct" none
    else Rsp.http 404 "" none
  | Req.rawAuth _ => Rsp.http 404 "" none
  | Req.treeJson _ =>
    Rsp.http 200 ""
      (some [⟨"a94a8fe5ccb19ba61c4c0873d391e987982fbbd3", "file"⟩])

/-- Oracle for the C1 fanout witness: the top listing has only the
2-character directory, its sublisting names the 38-character suffix, and
the raw fetch for the full fanout path succeeds. -/
def oracleC1b : Req → Rsp
  | Req.rawNoAuth p =>
    if p == "notes/commits/a9/4a8fe5ccb19ba61c4c0873d391e987982fbbd3" then
      Rsp.http 200 "resolved fanout" none
    else Rsp.http 404 "" none
  | Req.rawAuth _ => Rsp.http 404 "" none
  | Req.treeJson p =>
    if p == "notes/commits" then Rsp.http 200 "" (some [⟨"a9", "directory"⟩])
    else if p == "notes/commits/a9" then
      Rsp.http 200 ""
        (some [⟨"4a8fe5ccb19ba61c4c0873d391e987982fbbd3", "file"⟩])
    else Rsp.http 404 "" none

theorem attrKeep_implies_attrSafe (a : String × String) (h : attrKeep a = true) :
    attrSafe a = true := by
  unfold attrKeep at h
  unfold attrSafe
  simp only [Bool.and_eq_true] at h
  obtain ⟨hmem, hurl⟩ := h
  simp only [Bool.and_eq_true]
  refine ⟨?_, hurl⟩
  have hm : a.1 ∈ ALLOWED_ATTR := of_decide_eq_true hmem
  simp only [ALLOWED_ATTR, List.mem_cons, List.not_mem_nil, or_false] at hm
  rcases hm with h1 | h1 | h1 | h1 | h1 | h1 | h1
  all_goals rw [h1]
  all_goals decide

theorem htmlSafeList_append (a b : List Html) :
    htmlSafeList (a ++ b) = (htmlSafeList a && htmlSafeList b) := by
  induction a with
  | nil => simp [htmlSafeList]
  | cons h t ih => simp [htmlSafeList, ih, Bool.and_assoc]

mutual

theorem sanitizeNode_safe (h : Html) : htmlSafeList (sanitizeNode h) = true := by
  match h with
  | Html.text s => simp [sanitizeNode, htmlSafeList, htmlSafe]
  | Html.elem tag attrs children =>
    unfold sanitizeNode
    split
    case isTrue htag =>
      have hcs := sanitizeList_safe children
      have hm : tag ∈ ALLOWED_TAGS := of_decide_eq_true htag
      have hscript : (tag == "script") = false := by
        by_cases hts : tag = "script"
        · rw [hts] at hm
          simp [ALLOWED_TAGS] at hm
        · simpa using hts
      have hattrs : (attrs.filter attrKeep).all attrSafe = true := by
        rw [List.all_eq_true]
        intro a ha
        exact attrKeep_implies_attrSafe a (List.of_mem_filter ha)
      simp [htmlSafeList, htmlSafe, hscript, hattrs, hcs]
    case isFalse htag =>
      exact sanitizeList_safe children

theorem sanitizeList_safe (l : List Html) : htmlSafeList (sanitizeList l) = true := by
  match l with
  | [] => simp [sanitizeList, htmlSafeList]
  | h :: t =>
    unfold sanitizeList
    rw [htmlSafeList_append, sanitizeNode_safe h, sanitizeList_safe t]
    rfl

end

theorem dropWhile_all (p : Char → Bool) (l : List Char) (h : l.all p = true) :
    l.dropWhile p = [] := by
  induction l with
  | nil => rfl
  | cons c rest ih =>
    simp only [List.all_cons, Bool.and_eq_true] at h
    simp [List.dropWhile, h.1, ih h.2]

theorem countAfterTerm_pos (p : List Char → Bool) (s : List Char)
    (h : 0 < countAfterTerm p s) : existsAfterTerm p s = true := by
  induction s with
  | nil => simp [countAfterTerm] at h
  | cons c rest ih =>
    unfold countAfterTerm at h
    unfold existsAfterTerm
    by_cases hc : (isLineTerm c && p rest) = true
    · simp [hc]
    · simp only [hc, if_false] at h
      simp only [hc, Bool.false_or]
      exact ih (by simpa using h)

theorem countLineStarts_pos (p : List Char → Bool) (s : List Char)
    (h : 0 < countLineStarts p s) : existsAtLineStart p s = true := by
  unfold countLineStarts at h
  unfold existsAtLineStart
  by_cases hp : p s = true
  · simp [hp]
  · simp only [hp, if_false] at h
    simp only [hp, Bool.false_or]
    exact countAfterTerm_pos p s (by simpa using h)

/-- C3: detectFormat classifies the trimmed text as json exactly when it
starts with a curly or square bracket and parses as JSON; otherwise as
markdown exactly when a heading, bold, list, table, code-fence or
HTML-comment pattern is present; otherwise as yaml exactly when at least
two lines carry a key-colon-value pattern; otherwise as plain. -/
theorem c3_format_classification (jsonParses : List Char → Bool) (content : List Char) :
    (detectFormat jsonParses content = "json" ↔
      (jsonStart (jsTrim content) && jsonParses (jsTrim content)) = true) ∧
    (detectFormat jsonParses content = "markdown" ↔
      ((jsonStart (jsTrim content) && jsonParses (jsTrim content)) = false ∧
        markdownPattern (jsTrim content) = true)) ∧
    (detectFormat jsonParses content = "yaml" ↔
      ((jsonStart (jsTrim content) && jsonParses (jsTrim content)) = false ∧
        markdownPattern (jsTrim content) = false ∧
        2 ≤ countLineStarts yamlKeyAt (jsTrim content))) ∧
    (detectFormat jsonParses content = "plain" ↔
      ((jsonStart (jsTrim content) && jsonParses (jsTrim content)) = false ∧
        markdownPattern (jsTrim content) = false ∧
        countLineStarts yamlKeyAt (jsTrim content) < 2)) := by
  simp only [detectFormat]
  cases hb1 : jsonStart (jsTrim content) && jsonParses (jsTrim content) with
  | true => simp [hb1]
  | false =>
    cases hb2 : markdownPattern (jsTrim content) with
    | true => simp [hb1, hb2]
    | false =>
      rcases Nat.lt_or_ge (countLineStarts yamlKeyAt (jsTrim content)) 2 with hb3 | hb3
      · have hdec : decide (2 ≤ countLineStarts yamlKeyAt (jsTrim content)) = false := by
          simpa using Nat.not_le_of_lt hb3
        simp [hb1, hb2, hdec, hb3, Nat.not_le_of_lt hb3]
      · have hex : existsAtLineStart yamlKeyAt (jsTrim content) = true :=
          countLineStarts_pos yamlKeyAt (jsTrim content)
            (Nat.lt_of_lt_of_le (by decide) hb3)
        have hdec : decide (2 ≤ countLineStarts yamlKeyAt (jsTrim content)) = true := by
          simpa using hb3
        simp [hb1, hb2, hex, hdec, hb3, Nat.not_lt_of_ge hb3]

/-- C4: for every valid 40-hex commit SHA, the fanout split of
resolveNoteBlob and fetchNoteContent round-trips: slice(0,2) concatenated
with slice(2) restores the SHA, with lengths exactly 2 and 38. -/
theorem c4_slice_roundtrip (s : String) (hlen : s.data.length = 40)
    (hhex : s.data.all isHexChar = true) :
    jsSliceStr s 0 2 ++ jsSliceStrFrom s 2 = s ∧
    (jsSliceStr s 0 2).length = 2 ∧ (jsSliceStrFrom s 2).length = 38 := by
  obtain ⟨l⟩ := s
  refine ⟨?_, ?_, ?_⟩
  · show String.mk ((l.take 2).drop 0) ++ String.mk (l.drop 2) = String.mk l
    rw [List.drop_zero]
    show String.mk (l.take 2 ++ l.drop 2) = String.mk l
    rw [List.take_append_drop]
  · show ((l.take 2).drop 0).length = 2
    rw [List.drop_zero, List.length_take, hlen]
    decide
  · show (l.drop 2).length = 38
    rw [List.length_drop, hlen]

/-- C4 witness at a concrete 40-hex SHA. -/
theorem c4_witness :
    jsSliceStr "a94a8fe5ccb19ba61c4c0873d391e987982fbbd3" 0 2 ++
        jsSliceStrFrom "a94a8fe5ccb19ba61c4c0873d391e987982fbbd3" 2 =
      "a94a8fe5ccb19ba61c4c0873d391e987982fbbd3" ∧
    (jsSliceStr "a94a8fe5ccb19ba61c4c0873d391e987982fbbd3" 0 2).length = 2 ∧
    (jsSliceStrFrom "a94a8fe5ccb19ba61c4c0873d391e987982fbbd3" 2).length = 38 :=
  c4_slice_roundtrip "a94a8fe5ccb19ba61c4c0873d391e987982fbbd3" (by decide) (by decide)

/-- C5: for every HTML fragment the markdown renderer may emit from
crafted note content, the rendered output contains no script element, no
inline event-handler attribute, and no javascript: URL in href or src, so
note content cannot cause script execution. -/
theorem c5_sanitizer_safe (raw : List Html) : htmlSafe (renderMarkdownHtml raw) = true := by
  unfold renderMarkdownHtml htmlSafe
  rw [sanitizeList_safe raw]
  decide

/-- C8: detectFormat is total and deterministic: it always returns one of
the four labels, and equal inputs give equal labels. -/
theorem c8_detector_total (jsonParses jsonParses2 : List Char → Bool)
    (content content2 : List Char) (hf : jsonParses2 = jsonParses)
    (hc : content2 = content) :
    (detectFormat jsonParses content = "json" ∨
     detectFormat jsonParses content = "markdown" ∨
     detectFormat jsonParses content = "yaml" ∨
     detectFormat jsonParses content = "plain") ∧
    detectFormat jsonParses2 content2 = detectFormat jsonParses content := by
  subst hf
  subst hc
  refine ⟨?_, rfl⟩
  dsimp only [detectFormat]
  split
  · exact Or.inl rfl
  · split
    · exact Or.inr (Or.inl rfl)
    · split
      · exact Or.inr (Or.inr (Or.inl rfl))
      · exact Or.inr (Or.inr (Or.inr rfl))

/-- C8 witness at a concrete input. -/
theorem c8_witness :
    (detectFormat (fun _ => false) "# Title".data = "json" ∨
     detectFormat (fun _ => false) "# Title".data = "markdown" ∨
     detectFormat (fun _ => false) "# Title".data = "yaml" ∨
     detectFormat (fun _ => false) "# Title".data = "plain") ∧
    detectFormat (fun _ => false) "# Title".data =
      detectFormat (fun _ => false) "# Title".data :=
  c8_detector_total (fun _ => false) (fun _ => false) "# Title".data "# Title".data rfl rfl

/-- C9: when no note refs are configured (key absent or empty list), both
getNoteRefs implementations return the single default ref. -/
theorem c9_default_refs (stored : Option (List String))
    (h : stored = none ∨ stored = some []) :
    getNoteRefs stored = ["refs/notes/commits"] ∧
    getNoteRefsContent (Except.ok stored) = ["refs/notes/commits"] := by
  rcases h with h | h
  · subst h
    exact ⟨rfl, rfl⟩
  · subst h
    exact ⟨rfl, rfl⟩

/-- C9 witness at the absent-key input. -/
theorem c9_witness :
    getNoteRefs none = ["refs/notes/commits"] ∧
    getNoteRefsContent (Except.ok none) = ["refs/notes/commits"] :=
  c9_default_refs none (Or.inl rfl)

/-- C10: every input consisting only of whitespace trims to the empty text,
which no JSON, markdown or YAML pattern matches, so it is classified plain. -/
theorem c10_whitespace_plain (jsonParses : List Char → Bool) (content : List Char)
    (h : content.all isJsWhitespace = true) :
    jsTrim content = [] ∧ detectFormat jsonParses content = "plain" := by
  have ht : jsTrim content = [] := by
    unfold jsTrim
    rw [dropWhile_all isJsWhitespace content h]
    rfl
  refine ⟨ht, ?_⟩
  simp only [detectFormat]
  rw [ht]
  simp [jsonStart]
  decide

/-- C10 witness at a concrete whitespace-only input. -/
theorem c10_witness :
    jsTrim "   \n  \n".data = [] ∧
    detectFormat (fun _ => true) "   \n  \n".data = "plain" :=
  c10_whitespace_plain (fun _ => true) "   \n  \n".data (by decide)

theorem tryPaths_spec (o : Req → Rsp) (mk : String → Req) (ps : List String) :
    (tryPaths o mk ps).1 = firstSuccess o (ps.map mk) ∧
    (tryPaths o mk ps).2 = triedReqs o (ps.map mk) := by
  induction ps with
  | nil => exact ⟨rfl, rfl⟩
  | cons p rest ih =>
    unfold tryPaths
    simp only [List.map_cons]
    unfold firstSuccess triedReqs
    cases ho : o (mk p) with
    | netErr => simp [ih.1, ih.2]
    | http st text items =>
      by_cases hst : isOk st = true
      · simp [hst]
      · simp only [Bool.not_eq_true] at hst
        simp [hst, ih.1, ih.2]

theorem firstSuccess_append (o : Req → Rsp) (a b : List Req) :
    firstSuccess o (a ++ b) =
      (match firstSuccess o a with
       | some x => some x
       | none => firstSuccess o b) := by
  induction a with
  | nil => simp [firstSuccess]
  | cons r rest ih =>
    cases ho : o r with
    | netErr => simp [firstSuccess, ho, ih]
    | http st text items =>
      cases hst : isOk st with
      | true => simp [firstSuccess, ho, hst]
      | false => simp [firstSuccess, ho, hst, ih]

theorem triedReqs_of_none (o : Req → Rsp) (a : List Req)
    (h : firstSuccess o a = none) : triedReqs o a = a := by
  induction a with
  | nil => rfl
  | cons r rest ih =>
    cases ho : o r with
    | netErr =>
      simp only [firstSuccess, ho] at h
      simp [triedReqs, ho, ih h]
    | http st text items =>
      cases hst : isOk st with
      | true => simp [firstSuccess, ho, hst] at h
      | false =>
        simp only [firstSuccess, ho, hst, Bool.false_eq_true, if_false] at h
        simp [triedReqs, ho, hst, ih h]

theorem triedReqs_append_of_none (o : Req → Rsp) (a b : List Req)
    (h : firstSuccess o a = none) : triedReqs o (a ++ b) = a ++ triedReqs o b := by
  induction a with
  | nil => rfl
  | cons r rest ih =>
    cases ho : o r with
    | netErr =>
      simp only [firstSuccess, ho] at h
      simp [triedReqs, ho, ih h]
    | http st text items =>
      cases hst : isOk st with
      | true => simp [firstSuccess, ho, hst] at h
      | false =>
        simp only [firstSuccess, ho, hst, Bool.false_eq_true, if_false] at h
        simp [triedReqs, ho, hst, ih h]

theorem triedReqs_append_of_some (o : Req → Rsp) (a b : List Req) (x : String)
    (h : firstSuccess o a = some x) : triedReqs o (a ++ b) = triedReqs o a := by
  induction a with
  | nil => simp [firstSuccess] at h
  | cons r rest ih =>
    cases ho : o r with
    | netErr =>
      simp only [firstSuccess, ho] at h
      simp [triedReqs, ho, ih h]
    | http st text items =>
      cases hst : isOk st with
      | true => simp [triedReqs, ho, hst]
      | false =>
        simp only [firstSuccess, ho, hst, Bool.false_eq_true, if_false] at h
        simp [triedReqs, ho, hst, ih h]

theorem mem_triedReqs (o : Req → Rsp) (a : List Req) (r : Req)
    (h : r ∈ triedReqs o a) : r ∈ a := by
  induction a with
  | nil => simp [triedReqs] at h
  | cons q rest ih =>
    cases ho : o q with
    | netErr =>
      simp only [triedReqs, ho] at h
      rcases List.mem_cons.mp h with h1 | h1
      · exact List.mem_cons.mpr (Or.inl h1)
      · exact List.mem_cons.mpr (Or.inr (ih h1))
    | http st text items =>
      cases hst : isOk st with
      | true =>
        simp only [triedReqs, ho, hst, if_true] at h
        rcases List.mem_cons.mp h with h1 | h1
        · exact List.mem_cons.mpr (Or.inl h1)
        · simp at h1
      | false =>
        simp only [triedReqs, ho, hst, Bool.false_eq_true, if_false] at h
        rcases List.mem_cons.mp h with h1 | h1
        · exact List.mem_cons.mpr (Or.inl h1)
        · exact List.mem_cons.mpr (Or.inr (ih h1))

theorem contentOrToken_trace (o : Req → Rsp) (token : Option String)
    (noteRef full : String) (tr : List Req) :
    ∃ rest, (contentOrToken o token noteRef full tr).2 = tr ++ rest := by
  cases hf : (fetchNoteContent o token noteRef full).1 with
  | some c =>
    exact ⟨(fetchNoteContent o token noteRef full).2, by simp [contentOrToken, hf]⟩
  | none =>
    exact ⟨(fetchNoteContent o token noteRef full).2, by simp [contentOrToken, hf]⟩

theorem fanoutLookup_trace (o : Req → Rsp) (token : Option String)
    (noteRef sha branch : String) (entries : List CEntry) (tr : List Req) :
    ∃ rest, (fanoutLookup o token noteRef sha branch entries tr).2 = tr ++ rest := by
  cases hfind : entries.find?
      (fun e => e.name == jsSliceStr sha 0 2 && e.contentType == "directory") with
  | none => exact ⟨[], by simp [fanoutLookup, hfind]⟩
  | some d =>
    cases ho : o (Req.treeJson (branch ++ "/" ++ jsSliceStr sha 0 2)) with
    | netErr =>
      exact ⟨[Req.treeJson (branch ++ "/" ++ jsSliceStr sha 0 2)],
        by simp [fanoutLookup, hfind, ho]⟩
    | http st text items =>
      cases hst : isOk st with
      | false =>
        exact ⟨[Req.treeJson (branch ++ "/" ++ jsSliceStr sha 0 2)],
          by simp [fanoutLookup, hfind, ho, hst]⟩
      | true =>
        cases hsub : (items.getD []).find? (nameMatches (jsSliceStrFrom sha 2)) with
        | none =>
          exact ⟨[Req.treeJson (branch ++ "/" ++ jsSliceStr sha 0 2)],
            by simp [fanoutLookup, hfind, ho, hst, hsub]⟩
        | some sm =>
          obtain ⟨r2, hr2⟩ := contentOrToken_trace o token noteRef
            (jsSliceStr sha 0 2 ++ "/" ++ sm.name)
            (tr ++ [Req.treeJson (branch ++ "/" ++ jsSliceStr sha 0 2)])
          exact ⟨[Req.treeJson (branch ++ "/" ++ jsSliceStr sha 0 2)] ++ r2,
            by simp [fanoutLookup, hfind, ho, hst, hsub, hr2]⟩

/-- C2 (amended): the note-content strategy chain of content.js tries the
unauthenticated raw endpoint over both layouts first, then (when a token
is stored) the token-authenticated raw endpoint over both layouts; the
chain stops at the first successful (2xx) response, any non-2xx response
advances to the next attempt, and network errors are non-fatal and
skipped.  The same-origin cookie-authenticated tree endpoint is never part
of this chain: fetchGitNote consults it only after the whole raw chain has
failed, and a raw success returns at once. -/
theorem c2_amended (o : Req → Rsp) (token : Option String) (noteRef sha : String) :
    (fetchNoteContent o token noteRef sha).1 =
      firstSuccess o (strategyReqs token noteRef sha) ∧
    (fetchNoteContent o token noteRef sha).2 =
      triedReqs o (strategyReqs token noteRef sha) ∧
    (fetchNoteContent o token noteRef sha).2.all isRawReq = true ∧
    (∃ rest, (fetchGitNote o token noteRef sha).2 =
      (fetchNoteContent o token noteRef sha).2 ++ rest) ∧
    (∀ c, (fetchNoteContent o token noteRef sha).1 = some c →
      fetchGitNote o token noteRef sha =
        (Except.ok (some ⟨some c, false⟩), (fetchNoteContent o token noteRef sha).2)) := by
  obtain ⟨h1, h2⟩ := tryPaths_spec o Req.rawNoAuth (notePaths (stripRefs noteRef) sha)
  have key : (fetchNoteContent o token noteRef sha).1 =
      firstSuccess o (strategyReqs token noteRef sha) ∧
      (fetchNoteContent o token noteRef sha).2 =
        triedReqs o (strategyReqs token noteRef sha) := by
    cases token with
    | none =>
      cases hs : (tryPaths o Req.rawNoAuth (notePaths (stripRefs noteRef) sha)).1 with
      | some t =>
        have h1s : firstSuccess o
            (List.map Req.rawNoAuth (notePaths (stripRefs noteRef) sha)) = some t :=
          h1.symm.trans hs
        constructor
        · simp [fetchNoteContent, strategyReqs, hs, h1s]
        · simp [fetchNoteContent, strategyReqs, hs, h2]
      | none =>
        have h1s : firstSuccess o
            (List.map Req.rawNoAuth (notePaths (stripRefs noteRef) sha)) = none :=
          h1.symm.trans hs
        constructor
        · simp [fetchNoteContent, strategyReqs, hs, h1s]
        · simp [fetchNoteContent, strategyReqs, hs, h2]
    | some tk =>
      obtain ⟨g1, g2⟩ := tryPaths_spec o Req.rawAuth (notePaths (stripRefs noteRef) sha)
      cases hs : (tryPaths o Req.rawNoAuth (notePaths (stripRefs noteRef) sha)).1 with
      | some t =>
        have h1s : firstSuccess o
            (List.map Req.rawNoAuth (notePaths (stripRefs noteRef) sha)) = some t :=
          h1.symm.trans hs
        constructor
        · simp [fetchNoteContent, strategyReqs, hs, firstSuccess_append, h1s]
        · simp only [fetchNoteContent, strategyReqs, hs]
          rw [triedReqs_append_of_some o _ _ t h1s]
          exact h2
      | none =>
        have h1s : firstSuccess o
            (List.map Req.rawNoAuth (notePaths (stripRefs noteRef) sha)) = none :=
          h1.symm.trans hs
        constructor
        · simp [fetchNoteContent, strategyReqs, hs, firstSuccess_append, h1s, g1]
        · simp only [fetchNoteContent, strategyReqs, hs]
          rw [triedReqs_append_of_none o _ _ h1s, ← triedReqs_of_none o _ h1s, ← h2, ← g2]
  refine ⟨key.1, key.2, ?_, ?_, ?_⟩
  · rw [key.2, List.all_eq_true]
    intro r hr
    have hmem := mem_triedReqs o _ r hr
    unfold strategyReqs at hmem
    rcases List.mem_append.mp hmem with hm | hm
    · obtain ⟨p, hp, hpr⟩ := List.mem_map.mp hm
      rw [← hpr]
      rfl
    · cases token with
      | some tk =>
        obtain ⟨p, hp, hpr⟩ := List.mem_map.mp hm
        rw [← hpr]
        rfl
      | none => simp at hm
  · cases hd : (fetchNoteContent o token noteRef sha).1 with
    | some c => exact ⟨[], by simp [fetchGitNote, hd]⟩
    | none =>
      cases ho : o (Req.treeJson (stripRefs noteRef)) with
      | netErr =>
        exact ⟨[Req.treeJson (stripRefs noteRef)], by simp [fetchGitNote, hd, ho]⟩
      | http st text items =>
        cases hst : isOk st with
        | false =>
          exact ⟨[Req.treeJson (stripRefs noteRef)], by simp [fetchGitNote, hd, ho, hst]⟩
        | true =>
          cases items with
          | none =>
            exact ⟨[Req.treeJson (stripRefs noteRef)], by simp [fetchGitNote, hd, ho, hst]⟩
          | some entries =>
            cases hfind : entries.find? (nameMatches sha) with
            | some m =>
              cases hm : m.contentType == "file" with
              | true =>
                obtain ⟨r2, hr2⟩ := contentOrToken_trace o token noteRef m.name
                  ((fetchNoteContent o token noteRef sha).2 ++
                    [Req.treeJson (stripRefs noteRef)])
                exact ⟨[Req.treeJson (stripRefs noteRef)] ++ r2,
                  by simp [fetchGitNote, hd, ho, hst, hfind, hm, hr2]⟩
              | false =>
                obtain ⟨r2, hr2⟩ := fanoutLookup_trace o token noteRef sha
                  (stripRefs noteRef) entries
                  ((fetchNoteContent o token noteRef sha).2 ++
                    [Req.treeJson (stripRefs noteRef)])
                exact ⟨[Req.treeJson (stripRefs noteRef)] ++ r2,
                  by simp [fetchGitNote, hd, ho, hst, hfind, hm, hr2]⟩
            | none =>
              obtain ⟨r2, hr2⟩ := fanoutLookup_trace o token noteRef sha
                (stripRefs noteRef) entries
                ((fetchNoteContent o token noteRef sha).2 ++
                  [Req.treeJson (stripRefs noteRef)])
              exact ⟨[Req.treeJson (stripRefs noteRef)] ++ r2,
                by simp [fetchGitNote, hd, ho, hst, hfind, hr2]⟩
  · intro c hc
    simp [fetchGitNote, hc]

/-- C2 counterexample: with every endpoint willing to answer, the whole
request trace of a note fetch is a single unauthenticated raw request —
the same-origin cookie-authenticated endpoint, which the claim says is
tried first, is never contacted. -/
theorem c2_counterexample :
    fetchGitNote oracleC2 (some "token123") "refs/notes/commits"
        "a94a8fe5ccb19ba61c4c0873d391e987982fbbd3" =
      (Except.ok (some ⟨some "served by unauthenticated raw", false⟩),
       [Req.rawNoAuth "notes/commits/a94a8fe5ccb19ba61c4c0873d391e987982fbbd3"]) := by
  rfl

/-- C2 witness instantiating the amended theorem at the oracle above. -/
theorem c2_witness :
    (fetchNoteContent oracleC2 (some "token123") "refs/notes/commits"
        "a94a8fe5ccb19ba61c4c0873d391e987982fbbd3").1 =
      firstSuccess oracleC2 (strategyReqs (some "token123") "refs/notes/commits"
        "a94a8fe5ccb19ba61c4c0873d391e987982fbbd3") ∧
    fetchGitNote oracleC2 (some "token123") "refs/notes/commits"
        "a94a8fe5ccb19ba61c4c0873d391e987982fbbd3" =
      (Except.ok (some ⟨some "served by unauthenticated raw", false⟩),
       (fetchNoteContent oracleC2 (some "token123") "refs/notes/commits"
        "a94a8fe5ccb19ba61c4c0873d391e987982fbbd3").2) :=
  ⟨(c2_amended oracleC2 (some "token123") "refs/notes/commits"
      "a94a8fe5ccb19ba61c4c0873d391e987982fbbd3").1,
   (c2_amended oracleC2 (some "token123") "refs/notes/commits"
      "a94a8fe5ccb19ba61c4c0873d391e987982fbbd3").2.2.2.2
     "served by unauthenticated raw" (by rfl)⟩

/-- C1 counterexample: the background resolver resolveNoteBlob does not
prefix-match.  With a tree whose only blob entry is a full 40-hex SHA, an
abbreviated 10-character SHA that is a prefix of that name resolves to
nothing; likewise in the fanout layout, where the abbreviated suffix is a
prefix of the subtree entry name. -/
theorem c1_counterexample :
    startsWithL "a94a8fe5cc".data
        "a94a8fe5ccb19ba61c4c0873d391e987982fbbd3".data = true ∧
    "a94a8fe5cc".length < 40 ∧
    resolveNoteBlob
        (buildTree [⟨"a94a8fe5ccb19ba61c4c0873d391e987982fbbd3", BType.blob, "blob111"⟩])
        (fun _ => Except.ok []) "a94a8fe5cc" = Except.ok none ∧
    resolveNoteBlob (buildTree [⟨"a9", BType.tree, "subtree222"⟩])
        (fun _ => Except.ok
          [⟨"4a8fe5ccb19ba61c4c0873d391e987982fbbd3", BType.blob, "blob333"⟩])
        "a94a8fe5cc" = Except.ok none := by
  exact ⟨by decide, by decide, rfl, rfl⟩

/-- C1 (amended): only the content-script resolver (fetchGitNote of
content.js) tolerates abbreviated SHAs, by prefix-matching tree entries in
both the direct and the fanout layout; the background resolveNoteBlob
resolves only exact full names.  First conjunct: a prefix-matching entry
in a listing guarantees the matcher finds a prefix-matching entry.  Second
and third conjuncts: when the raw fetches for the abbreviated SHA fail and
the listing resolves it, fetchGitNote returns the note content found under
the full name (direct layout, then fanout layout). -/
theorem c1_amended :
    (∀ (es : List CEntry) (s : String) (e : CEntry), e ∈ es →
      nameMatches s e = true →
      ∃ m2, es.find? (nameMatches s) = some m2 ∧ nameMatches s m2 = true) ∧
    (∀ (o : Req → Rsp) (token : Option String) (noteRef sha body : String)
        (entries : List CEntry) (m : CEntry),
      (fetchNoteContent o token noteRef sha).1 = none →
      o (Req.treeJson (stripRefs noteRef)) = Rsp.http 200 "" (some entries) →
      entries.find? (nameMatches sha) = some m →
      m.contentType = "file" →
      (fetchNoteContent o token noteRef m.name).1 = some body →
      (fetchGitNote o token noteRef sha).1 = Except.ok (some ⟨some body, false⟩)) ∧
    (∀ (o : Req → Rsp) (token : Option String) (noteRef sha body : String)
        (entries subEntries : List CEntry) (d sm : CEntry),
      (fetchNoteContent o token noteRef sha).1 = none →
      o (Req.treeJson (stripRefs noteRef)) = Rsp.http 200 "" (some entries) →
      entries.find? (nameMatches sha) = none →
      entries.find?
        (fun e => e.name == jsSliceStr sha 0 2 && e.contentType == "directory") =
        some d →
      o (Req.treeJson (stripRefs noteRef ++ "/" ++ jsSliceStr sha 0 2)) =
        Rsp.http 200 "" (some subEntries) →
      subEntries.find? (nameMatches (jsSliceStrFrom sha 2)) = some sm →
      (fetchNoteContent o token noteRef
        (jsSliceStr sha 0 2 ++ "/" ++ sm.name)).1 = some body →
      (fetchGitNote o token noteRef sha).1 = Except.ok (some ⟨some body, false⟩)) := by
  refine ⟨?_, ?_, ?_⟩
  · intro es s e hmem hmatch
    have hsome : (es.find? (nameMatches s)).isSome = true := by
      rw [List.find?_isSome]
      exact ⟨e, hmem, hmatch⟩
    obtain ⟨m2, hm2⟩ := Option.isSome_iff_exists.mp hsome
    exact ⟨m2, hm2, List.find?_some hm2⟩
  · intro o token noteRef sha body entries m hd htree hfind hfile hfull
    have hfb : (m.contentType == "file") = true := by simp [hfile]
    simp [fetchGitNote, contentOrToken, hd, htree, hfind, hfb, hfull, isOk]
  · intro o token noteRef sha body entries subEntries d sm hd htree hnone hdir hsub hsm hfull
    simp [fetchGitNote, fanoutLookup, contentOrToken, hd, htree, hnone, hdir,
      hsub, hsm, hfull, isOk]

/-- C1 witness: the amended theorem applied at an abbreviated 10-character
SHA, in the direct layout and in the fanout layout. -/
theorem c1_witness :
    (∃ m2, [(⟨"a94a8fe5ccb19ba61c4c0873d391e987982fbbd3", "file"⟩ : CEntry)].find?
        (nameMatches "a94a8fe5cc") = some m2 ∧ nameMatches "a94a8fe5cc" m2 = true) ∧
    (fetchGitNote oracleC1a none "refs/notes/commits" "a94a8fe5cc").1 =
      Except.ok (some ⟨some "resolved direct", false⟩) ∧
    (fetchGitNote oracleC1b none "refs/notes/commits" "a94a8fe5cc").1 =
      Except.ok (some ⟨some "resolved fanout", false⟩) :=
  ⟨c1_amended.1 [⟨"a94a8fe5ccb19ba61c4c0873d391e987982fbbd3", "file"⟩]
      "a94a8fe5cc" ⟨"a94a8fe5ccb19ba61c4c0873d391e987982fbbd3", "file"⟩
      (by decide) (by decide),
   c1_amended.2.1 oracleC1a none "refs/notes/commits" "a94a8fe5cc"
      "resolved direct" [⟨"a94a8fe5ccb19ba61c4c0873d391e987982fbbd3", "file"⟩]
      ⟨"a94a8fe5ccb19ba61c4c0873d391e987982fbbd3", "file"⟩
      (by rfl) (by rfl) (by rfl) (by rfl) (by rfl),
   c1_amended.2.2 oracleC1b none "refs/notes/commits" "a94a8fe5cc"
      "resolved fanout" [⟨"a9", "directory"⟩]
      [⟨"4a8fe5ccb19ba61c4c0873d391e987982fbbd3", "file"⟩]
      ⟨"a9", "directory"⟩ ⟨"4a8fe5ccb19ba61c4c0873d391e987982fbbd3", "file"⟩
      (by rfl) (by rfl) (by rfl) (by rfl) (by rfl) (by rfl) (by rfl)⟩

/-- C6: with no stored token, handleFetchGitNote replies no_token without
invoking the API chain for any ref; githubApi classifies a 401 as an
invalid-token error, a 403 with exhausted rate limit as a rate-limit
error, and a 404 as not-found; and the per-ref loop skips a thrown 404
silently (continuing with the remaining refs), turns a 401 into an
auth_error reply, a 403 into a rate_limit reply, and any other thrown
status into a generic api_error reply. -/
theorem c6_error_classes (refs : List String)
    (fetch : String → Except GhErr (Option String)) (r : String)
    (rest : List String) (acc : List (String × String)) (e : GhErr)
    (rem rs reset : Option String) (hf : fetch r = Except.error e) :
    handleFetchGitNote none refs fetch =
      (Reply.err "no_token" "No GitHub token configured", []) ∧
    classifyApi ⟨401, rem, rs⟩ = some ⟨401, "Invalid or expired token"⟩ ∧
    classifyApi ⟨403, some "0", reset⟩ =
      some ⟨403, (match reset with
        | some x => "Rate limit exceeded. Resets at " ++ x
        | none => "Rate limit exceeded")⟩ ∧
    classifyApi ⟨404, rem, rs⟩ = some ⟨404, "Not found"⟩ ∧
    fetchLoopT fetch (r :: rest) acc =
      (if e.status == 404 then
        ((fetchLoopT fetch rest acc).1, r :: (fetchLoopT fetch rest acc).2)
      else if e.status == 401 then (Reply.err "auth_error" e.message, [r])
      else if e.status == 403 then (Reply.err "rate_limit" e.message, [r])
      else (Reply.err "api_error" e.message, [r])) := by
  refine ⟨rfl, rfl, ?_, rfl, ?_⟩
  · cases reset <;> rfl
  · simp [fetchLoopT, hf]

/-- C6 witness: concrete instances of every error class. -/
theorem c6_witness :
    handleFetchGitNote none ["refs/notes/commits"]
        (fun _ => Except.error ⟨500, "boom"⟩) =
      (Reply.err "no_token" "No GitHub token configured", []) ∧
    classifyApi ⟨403, some "0", some "10:00:00"⟩ =
      some ⟨403, "Rate limit exceeded. Resets at 10:00:00"⟩ ∧
    fetchLoopT (fun _ => Except.error ⟨500, "boom"⟩) ["refs/notes/commits"] [] =
      (Reply.err "api_error" "boom", ["refs/notes/commits"]) := by
  have h := c6_error_classes ["refs/notes/commits"]
    (fun _ => Except.error ⟨500, "boom"⟩) "refs/notes/commits" [] []
    ⟨500, "boom"⟩ none none (some "10:00:00") rfl
  exact ⟨h.1, h.2.2.1, by simpa using h.2.2.2.2⟩

theorem find?_map_set (m : List (String × CacheEntry)) (k : String) (v : CacheEntry)
    (h : (m.find? (fun p => p.1 == k)).isSome = true) :
    (m.map (fun p => if p.1 == k then (k, v) else p)).find? (fun p => p.1 == k) =
      some (k, v) := by
  induction m with
  | nil => simp at h
  | cons a rest ih =>
    cases ha : a.1 == k with
    | true =>
      simp only [List.map_cons, ha, if_true]
      rw [List.find?_cons_of_pos _ (by simp)]
    | false =>
      rw [List.find?_cons_of_neg _ (by simp [ha])] at h
      simp only [List.map_cons, ha, Bool.false_eq_true, if_false]
      rw [List.find?_cons_of_neg _ (by simp [ha])]
      exact ih h

theorem find?_append_single (m : List (String × CacheEntry)) (k : String)
    (v : CacheEntry) (h : m.find? (fun p => p.1 == k) = none) :
    (m ++ [(k, v)]).find? (fun p => p.1 == k) = some (k, v) := by
  induction m with
  | nil =>
    simp only [List.nil_append]
    rw [List.find?_cons_of_pos _ (by simp)]
  | cons a rest ih =>
    cases ha : a.1 == k with
    | true =>
      rw [List.find?_cons_of_pos _ (by simp [ha])] at h
      simp at h
    | false =>
      rw [List.find?_cons_of_neg _ (by simp [ha])] at h
      simp only [List.cons_append]
      rw [List.find?_cons_of_neg _ (by simp [ha])]
      exact ih h

theorem cacheGet_set (m : List (String × CacheEntry)) (k : String) (v : CacheEntry) :
    cacheGet (cacheSet m k v) k = some v := by
  cases hs : (m.find? (fun p => p.1 == k)).isSome with
  | true =>
    unfold cacheGet cacheSet
    rw [if_pos hs, find?_map_set m k v hs]
    rfl
  | false =>
    have hn : m.find? (fun p => p.1 == k) = none := by
      cases hm : m.find? (fun p => p.1 == k) with
      | none => rfl
      | some a =>
        rw [hm] at hs
        simp at hs
    unfold cacheGet cacheSet
    rw [if_neg (by simp [hs]), find?_append_single m k v hn]
    rfl

/-- C7: fetchNotesTree serves a cached tree exactly under the five-minute
freshness test: a cached entry younger than CACHE_TTL is returned with the
cache unchanged; on a miss or a stale entry the tree is refetched and
stored stamped with the current time; and every successful call leaves the
returned tree in the cache under a timestamp younger than CACHE_TTL, so
every tree served from the cache is younger than five minutes. -/
theorem c7_cache_ttl :
    (∀ (cache : List (String × CacheEntry)) (owner repo noteRef : String) (now : Int)
        (refApi : Except GhErr String) (commitApi : String → Except GhErr String)
        (treeApi : String → Except GhErr (List GEntry)) (en : CacheEntry),
      cacheGet cache (cacheKey owner repo noteRef) = some en →
      now - en.ts < CACHE_TTL →
      fetchNotesTree cache owner repo noteRef now refApi commitApi treeApi =
        Except.ok (en.tree, cache)) ∧
    (∀ (cache : List (String × CacheEntry)) (owner repo noteRef : String) (now : Int)
        (refApi : Except GhErr String) (commitApi : String → Except GhErr String)
        (treeApi : String → Except GhErr (List GEntry)) (cs ts : String)
        (entries : List GEntry),
      isCacheValid (cacheGet cache (cacheKey owner repo noteRef)) now = false →
      refApi = Except.ok cs → commitApi cs = Except.ok ts →
      treeApi ts = Except.ok entries →
      fetchNotesTree cache owner repo noteRef now refApi commitApi treeApi =
        Except.ok (buildTree entries,
          cacheSet cache (cacheKey owner repo noteRef) ⟨buildTree entries, now⟩)) ∧
    (∀ (cache : List (String × CacheEntry)) (owner repo noteRef : String) (now : Int)
        (refApi : Except GhErr String) (commitApi : String → Except GhErr String)
        (treeApi : String → Except GhErr (List GEntry))
        (t : List (String × BEntry)) (c2 : List (String × CacheEntry)),
      fetchNotesTree cache owner repo noteRef now refApi commitApi treeApi =
        Except.ok (t, c2) →
      ∃ ts, cacheGet c2 (cacheKey owner repo noteRef) = some ⟨t, ts⟩ ∧
        now - ts < CACHE_TTL) := by
  refine ⟨?_, ?_, ?_⟩
  · intro cache owner repo noteRef now refApi commitApi treeApi en hen hts
    simp [fetchNotesTree, hen, isCacheValid, hts]
  · intro cache owner repo noteRef now refApi commitApi treeApi cs ts entries
      hvalid h1 h2 h3
    simp [fetchNotesTree, hvalid, h1, h2, h3]
  · intro cache owner repo noteRef now refApi commitApi treeApi t c2 hres
    cases hval : isCacheValid (cacheGet cache (cacheKey owner repo noteRef)) now with
    | true =>
      cases hc : cacheGet cache (cacheKey owner repo noteRef) with
      | none =>
        rw [hc] at hval
        simp [isCacheValid] at hval
      | some en =>
        rw [hc] at hval
        simp only [fetchNotesTree, hc, hval, if_true] at hres
        have h1 : en.tree = t ∧ cache = c2 := by
          cases hres
          exact ⟨rfl, rfl⟩
        obtain ⟨h1t, h1c⟩ := h1
        refine ⟨en.ts, ?_, ?_⟩
        · rw [← h1c, hc, ← h1t]
        · have := of_decide_eq_true (by simpa [isCacheValid] using hval)
          exact this
    | false =>
      cases href : refApi with
      | error e => simp [fetchNotesTree, hval, href] at hres
      | ok cs =>
        cases hcom : commitApi cs with
        | error e => simp [fetchNotesTree, hval, href, hcom] at hres
        | ok ts2 =>
          cases htr : treeApi ts2 with
          | error e => simp [fetchNotesTree, hval, href, hcom, htr] at hres
          | ok entries =>
            simp only [fetchNotesTree, hval, href, hcom, htr, Bool.false_eq_true,
              if_false] at hres
            have h1 : buildTree entries = t ∧
                cacheSet cache (cacheKey owner repo noteRef)
                  ⟨buildTree entries, now⟩ = c2 := by
              cases hres
              exact ⟨rfl, rfl⟩
            obtain ⟨h1t, h1c⟩ := h1
            refine ⟨now, ?_, ?_⟩
            · rw [← h1c, ← h1t]
              exact cacheGet_set cache (cacheKey owner repo noteRef)
                ⟨buildTree entries, now⟩
            · rw [sub_self]
              decide

/-- C7 witness: a fresh hit served from the cache, a refetch on a cold
cache stamped with the current time, and the freshness of the entry backing
each returned tree. -/
theorem c7_witness :
    fetchNotesTree [("o/r:refs/notes/commits", ⟨[], 1000⟩)] "o" "r"
        "refs/notes/commits" 1500 (Except.ok "c1") (fun _ => Except.ok "t1")
        (fun _ => Except.ok []) =
      Except.ok ([], [("o/r:refs/notes/commits", ⟨[], 1000⟩)]) ∧
    fetchNotesTree [] "o" "r" "refs/notes/commits" 1500 (Except.ok "c1")
        (fun _ => Except.ok "t1") (fun _ => Except.ok []) =
      Except.ok ([], cacheSet [] (cacheKey "o" "r" "refs/notes/commits") ⟨[], 1500⟩) ∧
    (∃ ts, cacheGet [("o/r:refs/notes/commits", ⟨[], 1000⟩)]
        (cacheKey "o" "r" "refs/notes/commits") = some ⟨[], ts⟩ ∧
      (1500 : Int) - ts < CACHE_TTL) :=
  ⟨c7_cache_ttl.1 [("o/r:refs/notes/commits", ⟨[], 1000⟩)] "o" "r"
      "refs/notes/commits" 1500 (Except.ok "c1") (fun _ => Except.ok "t1")
      (fun _ => Except.ok []) ⟨[], 1000⟩ (by rfl) (by decide),
   c7_cache_ttl.2.1 [] "o" "r" "refs/notes/commits" 1500 (Except.ok "c1")
      (fun _ => Except.ok "t1") (fun _ => Except.ok []) "c1" "t1" []
      (by rfl) (by rfl) (by rfl) (by rfl),
   c7_cache_ttl.2.2 [("o/r:refs/notes/commits", ⟨[], 1000⟩)] "o" "r"
      "refs/notes/commits" 1500 (Except.ok "c1") (fun _ => Except.ok "t1")
      (fun _ => Except.ok []) [] [("o/r:refs/notes/commits", ⟨[], 1000⟩)]
      (by rfl)⟩

end GhNotes
